import Mathlib

/-!
Verification of the `monk-js` runner core
(`packages/runner/usr/src/utils.ts` and `packages/runner/usr/src/cli.ts`)
against its natural-language specification.

The development shallowly embeds the runner's dependency-graph builder,
scheduler loop, batch dispatcher and CLI exit mapping.  JavaScript objects
used as string-keyed dictionaries (`files`, `deps`, manifest `dependencies`)
are embedded as insertion-ordered association lists (`Rec`).  The external
process-spawning primitive is abstracted by an outcome oracle
`o : String → Option CommandLineError` (`none` = the spawned command
succeeded, `some e` = the promise rejected with `e`), and `path.dirname`
by a function parameter `d : String → String`.
-/

set_option autoImplicit false

namespace MonkRunner

/-- Insertion-ordered string-keyed dictionary, embedding a JavaScript object
used as a record (`Record<string, T>`). -/
abbrev Rec (α : Type) : Type := List (String × α)

/-- Lookup of `r[k]`: the value at the first entry whose key is `k`. -/
def recFind? {α : Type} (r : Rec α) (k : String) : Option α :=
  match r with
  | [] => none
  | e :: rest => if e.1 = k then some e.2 else recFind? rest k

/-- Embeds `Object.hasOwn(r, k)`. -/
def recHas {α : Type} (r : Rec α) (k : String) : Bool :=
  (recFind? r k).isSome

/-- Lookup with a default value. -/
def recGetD {α : Type} (r : Rec α) (k : String) (dflt : α) : α :=
  (recFind? r k).getD dflt

/-- Embeds assignment `r[k] = v` when the key is already present:
the entry keeps its position, its value is replaced. -/
def recSet {α : Type} (r : Rec α) (k : String) (v : α) : Rec α :=
  r.map (fun e => if e.1 = k then (k, v) else e)

/-- Embeds `r[k] ??= v`: append a fresh entry only when the key is absent. -/
def recSetD {α : Type} (r : Rec α) (k : String) (v : α) : Rec α :=
  if recHas r k then r else r ++ [(k, v)]

/-- Embeds assignment `r[k] = v` (insert or overwrite). -/
def recInsert {α : Type} (r : Rec α) (k : String) (v : α) : Rec α :=
  if recHas r k then recSet r k v else r ++ [(k, v)]

/-- Embeds `delete r[k]`. -/
def recErase {α : Type} (r : Rec α) (k : String) : Rec α :=
  r.filter (fun e => e.1 != k)

/-- Error that occurs during the execution of a command-line process
(`CommandLineError` in `utils.ts`). -/
structure CommandLineError where
  stdout : String
  stderr : String
  code : Int
deriving DecidableEq, Repr

/-- Error encountered during a process (`CommandExecutionError` in `utils.ts`). -/
structure CommandExecutionError where
  file : String
  error : CommandLineError
deriving DecidableEq, Repr

/-- Package JSON file (`PackageJson` in `utils.ts`).  `dependencies` and
`devDependencies` are optional fields; `dependencies` maps a package name to
a version string. -/
structure PackageJson where
  name : String
  version : String
  dependencies : Option (Rec String)
  devDependencies : Option (Rec String)
deriving DecidableEq, Repr

/-- The runner env's `uncheck` field as received by `runPackageCommand`
through `Partial<RunnerEnv>`: a boolean, a string, or absent (`Option`). -/
inductive UncheckInput where
  | boolVal (b : Bool)
  | strVal (s : String)
deriving DecidableEq, Repr

/-- Result of the `uncheck` processing at the top of `runPackageCommand`:
either the exempt-all sentinel (`uncheck = true`) or a list of exempted
names. -/
inductive UncheckSpec where
  | all
  | names (l : List String)
deriving DecidableEq, Repr

/-- Embeds JavaScript's `s.split(',')` character-wise: split the string's
characters on the comma separator (so `"" ↦ [""]`, `"a,b" ↦ ["a","b"]`,
exactly as in JavaScript for the one-character separator). -/
def jsSplitComma (s : String) : List String :=
  (s.toList.splitOn ',').map List.asString

/-- Embeds lines 131-138 of `utils.ts`:
`env.uncheck === true || env.uncheck === '*'` yields the exempt-all
sentinel; any other string is split on commas; `false`/absent leaves the
initial empty list. -/
def parseUncheck (u : Option UncheckInput) : UncheckSpec :=
  match u with
  | some (.boolVal true) => .all
  | some (.strVal s) => if s = "*" then .all else .names (jsSplitComma s)
  | some (.boolVal false) => .names []
  | none => .names []

/-- JavaScript truthiness of the value of `dependencies[name]`: absent
(`undefined`) and the empty string are falsy, every other string is truthy. -/
def jsTruthy : Option String → Bool
  | none => false
  | some s => s != ""

/-- Embeds one evaluation of the inner-loop body of the dependency scan
(lines 147-157 of `utils.ts`) for outer package name `cur` and inner
manifest `p`:
`deps[p.name] ??= []`, then
`if (!uncheck.includes(p.name) && p.dependencies[cur] && !deps[p.name].includes(cur)) deps[p.name].push(cur)`.
The conjunction short-circuits: when `p.name` is exempted, `p.dependencies`
is never dereferenced; otherwise a missing `dependencies` field raises a
TypeError, embedded as `Except.error ()`.  The source's `devDependencies`
clause is commented out and therefore absent here. -/
def scanPair (u : List String) (cur : String) (deps : Rec (List String)) (p : PackageJson) :
    Except Unit (Rec (List String)) :=
  let deps1 := recSetD deps p.name []
  if p.name ∈ u then .ok deps1
  else
    match p.dependencies with
    | none => .error ()
    | some pd =>
        if jsTruthy (recFind? pd cur) && !((recGetD deps1 p.name []).contains cur)
        then .ok (recSet deps1 p.name (recGetD deps1 p.name [] ++ [cur]))
        else .ok deps1

/-- Embeds the inner `for (const file of packagesCopy)` loop of the
dependency scan for a fixed current package name `cur`. -/
def scanInner (u : List String) (read : String → PackageJson) (cur : String) :
    List String → Rec (List String) → Except Unit (Rec (List String))
  | [], deps => .ok deps
  | f :: fs, deps =>
      match scanPair u cur deps (read f) with
      | .error e => .error e
      | .ok d2 => scanInner u read cur fs d2

/-- Embeds the outer `for (const currentFile of packagesCopy)` loop of the
dependency scan (lines 142-158): records `files[currentFile] = name` and
runs the inner loop over all package files. -/
def scanOuter (u : List String) (read : String → PackageJson) (allFiles : List String) :
    List String → Rec String → Rec (List String) →
    Except Unit (Rec String × Rec (List String))
  | [], files, deps => .ok (files, deps)
  | f :: fs, files, deps =>
      let files2 := recInsert files f (read f).name
      match scanInner u read (read f).name allFiles deps with
      | .error e => .error e
      | .ok d2 => scanOuter u read allFiles fs files2 d2

/-- Embeds the whole dependency-graph construction (lines 140-159 of
`utils.ts`) for a non-exempt-all exemption list `u`: produces the
`files` alias map (file path → package name) and the `deps` adjacency
(package name → unresolved in-universe dependency names). -/
def buildGraph (u : List String) (read : String → PackageJson) (pkgs : List String) :
    Except Unit (Rec String × Rec (List String)) :=
  scanOuter u read pkgs pkgs [] []

/-- Embeds the source idiom `arr.splice(arr.indexOf(x), 1)` (lines 184 and
193 of `utils.ts`): when `x` occurs, the first occurrence is removed; when
it does not, `indexOf` yields `-1` and `splice(-1, 1)` removes the LAST
element of the array (and nothing when the array is empty). -/
def jsSplice (l : List String) (x : String) : List String :=
  if x ∈ l then l.erase x else l.dropLast

/-- Maximum number of threads (line 118 of `utils.ts`):
`Math.max(Math.round(cpus().length / 2), 2)`.  For a natural `c`,
`Math.round(c / 2) = (c + 1) / 2` (JavaScript rounds halves up). -/
def maxThreads (c : Nat) : Nat :=
  max ((c + 1) / 2) 2

/-- Embeds the chunking loop (lines 175-180):
`while (chunks.length > 0) { const chunk = chunks.splice(0, maxThreads); ... }`,
with explicit fuel for structural recursion; each step consumes at least one
element, so `l.length` fuel always suffices (see `chunksOf`). -/
def chunksOfAux (n : Nat) : Nat → List String → List (List String)
  | 0, _ => []
  | _ + 1, [] => []
  | fuel + 1, x :: xs => (x :: xs.take (n - 1)) :: chunksOfAux n fuel (xs.drop (n - 1))

/-- Partition of a ready frontier into consecutive chunks of size `n`
(`n ≥ 1`; the runner always uses `maxThreads ≥ 2`). -/
def chunksOf (n : Nat) (l : List String) : List (List String) :=
  chunksOfAux n l.length l

/-- Embeds `executePackageCommand` (lines 84-102 of `utils.ts`): the spawn
outcome for `file` is given by the oracle `o`; on failure the error is
caught and `{file: path.dirname(file), error}` is appended to the shared
error list; nothing escapes the `try`/`catch`. -/
def executePackageCommand (d : String → String) (o : String → Option CommandLineError)
    (errors : List CommandExecutionError) (file : String) : List CommandExecutionError :=
  match o file with
  | none => errors
  | some e => errors ++ [⟨d file, e⟩]

/-- Dispatch of one ready frontier (lines 173-180): split into chunks of at
most `n` items, run each chunk (its members settle together, appending any
failures), and only then start the next chunk. -/
def dispatchRound (d : String → String) (o : String → Option CommandLineError)
    (n : Nat) (errors : List CommandExecutionError) (round : List String) :
    List CommandExecutionError :=
  (chunksOf n round).foldl (fun es ch => ch.foldl (executePackageCommand d o) es) errors

/-- Failure record produced for `file` by a dispatch, when its command
fails: the caught error together with `path.dirname(file)`. -/
def errOf (d : String → String) (o : String → Option CommandLineError)
    (file : String) : Option CommandExecutionError :=
  (o file).map (fun e => ⟨d file, e⟩)

/-- Mutable scheduler state of the do-while loop in `runPackageCommand`:
the remaining package files (`packagesCopy`) and the dependency graph
(`deps`). -/
structure SchedState where
  packagesCopy : List String
  deps : Rec (List String)
deriving DecidableEq, Repr

/-- Embeds the ready-frontier computation (line 166):
`packagesCopy.filter(file => Object.hasOwn(deps, files[file]) && deps[files[file]].length == 0)`. -/
def frontier (files : Rec String) (st : SchedState) : List String :=
  st.packagesCopy.filter
    (fun f => recHas st.deps (recGetD files f "") &&
      (recGetD st.deps (recGetD files f "") []).isEmpty)

/-- Embeds the retirement of one frontier file (lines 182-195): remove it
from `packagesCopy` and its name from `deps`, then strike the name from
every remaining entry's list via `deps[dep].splice(deps[dep].indexOf(packageName), 1)`. -/
def retireOne (files : Rec String) (st : SchedState) (f : String) : SchedState :=
  let pc := jsSplice st.packagesCopy f
  let nm := recGetD files f ""
  let d1 := recErase st.deps nm
  ⟨pc, d1.map (fun e => (e.1, jsSplice e.2 nm))⟩

/-- Retirement of a whole frontier, in dispatch order. -/
def retire (files : Rec String) (st : SchedState) (fr : List String) : SchedState :=
  fr.foldl (retireOne files) st

/-- Terminal outcome of the scheduler loop: `drained` carries the dispatched
rounds in order; `deadlocked` additionally carries the residual package
files and their unresolved-dependency sets as reported on line 169. -/
inductive RunOutcome where
  | drained (rounds : List (List String))
  | deadlocked (rounds : List (List String)) (residual : List String) (residualDeps : Rec (List String))
deriving DecidableEq, Repr

/-- Rounds dispatched before the outcome. -/
def RunOutcome.rounds : RunOutcome → List (List String)
  | .drained rs => rs
  | .deadlocked rs _ _ => rs

/-- Prepend a dispatched round to an outcome's round list. -/
def consRound (r : List String) : RunOutcome → RunOutcome
  | .drained rs => .drained (r :: rs)
  | .deadlocked rs res g => .deadlocked (r :: rs) res g

/-- Embeds the do-while scheduler loop of `runPackageCommand`
(lines 164-199, dependency checking enabled) with explicit fuel:
compute the frontier; when it is empty return deadlock if packages remain
(line 170) or finish; otherwise dispatch the frontier in chunks, retire it,
and loop while `packagesCopy.length > 0`.  Every iteration with a nonempty
frontier strictly shrinks `packagesCopy` (`jsSplice` always removes one
element of a nonempty list), so `packagesCopy.length + 1` fuel always
suffices; the fuel-0 branch is unreachable from `schedLoop`. -/
def schedLoopAux (d : String → String) (o : String → Option CommandLineError)
    (n : Nat) (files : Rec String) :
    Nat → SchedState → List CommandExecutionError →
    RunOutcome × List CommandExecutionError
  | 0, _, errors => (.drained [], errors)
  | fuel + 1, st, errors =>
      let front := frontier files st
      if front.isEmpty then
        if st.packagesCopy.isEmpty then (.drained [[]], errors)
        else (.deadlocked [] st.packagesCopy st.deps, errors)
      else
        let errors2 := dispatchRound d o n errors front
        let st2 := retire files st front
        if st2.packagesCopy.isEmpty then (.drained [front], errors2)
        else
          let r := schedLoopAux d o n files fuel st2 errors2
          (consRound front r.1, r.2)

/-- The scheduler loop at its always-sufficient fuel. -/
def schedLoop (d : String → String) (o : String → Option CommandLineError)
    (n : Nat) (files : Rec String) (st : SchedState)
    (errors : List CommandExecutionError) :
    RunOutcome × List CommandExecutionError :=
  schedLoopAux d o n files (st.packagesCopy.length + 1) st errors

/-- Value returned by `runPackageCommand`: `false` when no errors occurred,
the number `1` on deadlock, or the collected error array. -/
inductive RunReturn where
  | noErrors
  | deadlockCode
  | failures (errs : List CommandExecutionError)
deriving DecidableEq, Repr

/-- Observable trace of one `runPackageCommand` run: the computed thread
limit, the scheduler outcome (dispatched rounds and any deadlock report),
the collected per-item failures, and the returned value. -/
structure RunTrace where
  threads : Nat
  outcome : RunOutcome
  errors : List CommandExecutionError
  result : RunReturn
deriving DecidableEq, Repr

/-- Embeds `runPackageCommand` (lines 113-209 of `utils.ts`).  `read`
abstracts `JSON.parse(fs.readFileSync ...)` of a manifest path, `d` is
`path.dirname`, `o` the spawn outcome oracle and `cpuCount` the host's
logical CPU count.  With the exempt-all sentinel no graph is built and the
whole package list runs as the single round (the loop `break`s after it);
otherwise the graph is built (a missing `dependencies` field on a
non-exempted manifest throws, `Except.error`) and the scheduler loop runs.
On deadlock the code returns `1`; otherwise it returns the error list when
nonempty and `false` when empty. -/
def runPackageCommand (read : String → PackageJson) (d : String → String)
    (o : String → Option CommandLineError) (cpuCount : Nat)
    (envUncheck : Option UncheckInput) (packages : List String) :
    Except Unit RunTrace :=
  let n := maxThreads cpuCount
  match parseUncheck envUncheck with
  | .all =>
      let errors := dispatchRound d o n [] packages
      .ok ⟨n, .drained [packages], errors,
        if errors.isEmpty then .noErrors else .failures errors⟩
  | .names u =>
      match buildGraph u read packages with
      | .error e => .error e
      | .ok (files, deps) =>
          let r := schedLoop d o n files ⟨packages, deps⟩ []
          .ok ⟨n, r.1, r.2,
            match r.1 with
            | .deadlocked _ _ _ => .deadlockCode
            | .drained _ => if r.2.isEmpty then .noErrors else .failures r.2⟩

/-- Embeds the runner CLI's exit-code mapping (`cli.ts`, lines 20-22):
`if (!await runPackageCommand(env, packages, command, args)) { process.exit(1); }`.
The returned value is falsy exactly when it is `false` (no errors); an
error array or the number `1` is truthy, so the script falls through and
the process exits `0`. -/
def cliExitCode (r : RunReturn) : Nat :=
  match r with
  | .noErrors => 1
  | .deadlockCode => 0
  | .failures _ => 0

/-! ### Dictionary lemmas -/

theorem recFind?_append {α : Type} (r₁ r₂ : Rec α) (k : String) :
    recFind? (r₁ ++ r₂) k =
      match recFind? r₁ k with
      | some v => some v
      | none => recFind? r₂ k := by
  induction r₁ with
  | nil => simp [recFind?]
  | cons e rest ih => by_cases h : e.1 = k <;> simp [recFind?, h, ih]

theorem recGetD_setD_nil (r : Rec (List String)) (k q : String) :
    recGetD (recSetD r k []) q [] = recGetD r q [] := by
  unfold recSetD
  by_cases h : recHas r k
  · simp [h]
  · simp only [h, if_false, Bool.false_eq_true, recGetD, recFind?_append]
    cases hf : recFind? r q with
    | some v => simp
    | none => by_cases hq : k = q <;> simp [recFind?, hq]

theorem recHas_setD_self {α : Type} (r : Rec α) (k : String) (v : α) :
    recHas (recSetD r k v) k = true := by
  unfold recSetD
  by_cases h : recHas r k
  · simp [h]
  · have hn : recFind? r k = none := by
      unfold recHas at h
      exact Option.not_isSome_iff_eq_none.mp (by simp [h])
    simp [h, recHas, recFind?_append, hn, recFind?]

theorem recFind?_set_ne {α : Type} (r : Rec α) (k q : String) (v : α) (h : q ≠ k) :
    recFind? (recSet r k v) q = recFind? r q := by
  induction r with
  | nil => rfl
  | cons e rest ih =>
      show recFind? ((if e.1 = k then (k, v) else e) :: recSet rest k v) q
        = if e.1 = q then some e.2 else recFind? rest q
      by_cases he : e.1 = k
      · rw [if_pos he]
        show (if k = q then some v else recFind? (recSet rest k v) q) = _
        have hq : ¬ e.1 = q := by rw [he]; exact fun hh => h hh.symm
        rw [if_neg (fun hh => h hh.symm), if_neg hq, ih]
      · rw [if_neg he]
        show (if e.1 = q then some e.2 else recFind? (recSet rest k v) q) = _
        by_cases hq : e.1 = q
        · rw [if_pos hq, if_pos hq]
        · rw [if_neg hq, if_neg hq, ih]

theorem recFind?_set_self {α : Type} (r : Rec α) (k : String) (v : α)
    (h : recHas r k = true) : recFind? (recSet r k v) k = some v := by
  induction r with
  | nil => simp [recHas, recFind?] at h
  | cons e rest ih =>
      show recFind? ((if e.1 = k then (k, v) else e) :: recSet rest k v) k = some v
      by_cases he : e.1 = k
      · rw [if_pos he]
        show (if k = k then some v else recFind? (recSet rest k v) k) = some v
        rw [if_pos rfl]
      · rw [if_neg he]
        show (if e.1 = k then some e.2 else recFind? (recSet rest k v) k) = some v
        have h' : recHas rest k = true := by
          unfold recHas recFind? at h
          simpa [he] using h
        rw [if_neg he, ih h']

theorem contains_iff_mem (l : List String) (a : String) :
    l.contains a = true ↔ a ∈ l := by
  simp [List.contains]

/-! ### Retirement length lemmas -/

theorem jsSplice_length (l : List String) (x : String) :
    (jsSplice l x).length = l.length - 1 := by
  unfold jsSplice
  split
  · exact List.length_erase_of_mem (by assumption)
  · exact List.length_dropLast l

theorem retireOne_packagesCopy (files : Rec String) (st : SchedState) (f : String) :
    (retireOne files st f).packagesCopy = jsSplice st.packagesCopy f := rfl

theorem retire_length (files : Rec String) (fr : List String) (st : SchedState) :
    (retire files st fr).packagesCopy.length = st.packagesCopy.length - fr.length := by
  induction fr generalizing st with
  | nil => simp [retire]
  | cons f fs ih =>
      show (retire files (retireOne files st f) fs).packagesCopy.length = _
      rw [ih, retireOne_packagesCopy, jsSplice_length]
      simp only [List.length_cons]
      omega

/-! ### Chunking lemmas -/

theorem chunksOfAux_join (n : Nat) :
    ∀ (fuel : Nat) (l : List String), l.length ≤ fuel →
      (chunksOfAux n fuel l).flatten = l := by
  intro fuel
  induction fuel with
  | zero =>
      intro l h
      have : l = [] := List.length_eq_zero.mp (Nat.le_zero.mp h)
      simp [this, chunksOfAux]
  | succ fuel ih =>
      intro l h
      cases l with
      | nil => simp [chunksOfAux]
      | cons x xs =>
          have hlen : (xs.drop (n - 1)).length ≤ fuel := by
            simp only [List.length_drop]
            simp only [List.length_cons] at h
            omega
          simp [chunksOfAux, ih _ hlen, List.take_append_drop]

theorem chunksOf_join (n : Nat) (l : List String) : (chunksOf n l).flatten = l :=
  chunksOfAux_join n l.length l le_rfl

theorem chunksOfAux_length_le (n : Nat) :
    ∀ (fuel : Nat) (l : List String) (ch : List String),
      ch ∈ chunksOfAux n fuel l → ch.length ≤ max n 1 := by
  intro fuel
  induction fuel with
  | zero => simp [chunksOfAux]
  | succ fuel ih =>
      intro l ch h
      cases l with
      | nil => simp [chunksOfAux] at h
      | cons x xs =>
          simp only [chunksOfAux, List.mem_cons] at h
          rcases h with h | h
          · subst h
            simp only [List.length_cons, List.length_take]
            omega
          · exact ih _ _ h

theorem chunksOf_length_le (n : Nat) (l ch : List String) (h : ch ∈ chunksOf n l) :
    ch.length ≤ max n 1 :=
  chunksOfAux_length_le n l.length l ch h

/-! ### Dispatch lemmas -/

theorem foldl_exec (d : String → String) (o : String → Option CommandLineError)
    (ch : List String) :
    ∀ es, ch.foldl (executePackageCommand d o) es = es ++ ch.filterMap (errOf d o) := by
  induction ch with
  | nil => simp
  | cons f fs ih =>
      intro es
      cases hf : o f with
      | none => simp [List.foldl_cons, List.filterMap_cons, executePackageCommand, hf, errOf, ih]
      | some e => simp [List.foldl_cons, List.filterMap_cons, executePackageCommand, hf, errOf, ih]

theorem dispatchRound_eq (d : String → String) (o : String → Option CommandLineError)
    (n : Nat) (es : List CommandExecutionError) (round : List String) :
    dispatchRound d o n es round = es ++ round.filterMap (errOf d o) := by
  unfold dispatchRound
  have h1 : ∀ (L : List (List String)) (es : List CommandExecutionError),
      L.foldl (fun es ch => ch.foldl (executePackageCommand d o) es) es
        = es ++ L.flatten.filterMap (errOf d o) := by
    intro L
    induction L with
    | nil => simp
    | cons ch L ih =>
        intro es
        rw [List.foldl_cons, foldl_exec, ih, List.flatten_cons, List.filterMap_append,
          List.append_assoc]
  rw [h1, chunksOf_join]

/-! ### Graph-builder membership lemmas -/

theorem recGetD_set_ne (r : Rec (List String)) (k q : String) (v : List String)
    (h : q ≠ k) : recGetD (recSet r k v) q [] = recGetD r q [] := by
  unfold recGetD
  rw [recFind?_set_ne _ _ _ _ h]

theorem recGetD_set_self (r : Rec (List String)) (k : String) (v : List String)
    (h : recHas r k = true) : recGetD (recSet r k v) k [] = v := by
  unfold recGetD
  rw [recFind?_set_self _ _ _ h]
  rfl

theorem scanPair_mem (u : List String) (cur : String) (deps : Rec (List String))
    (p : PackageJson) (deps' : Rec (List String))
    (h : scanPair u cur deps p = .ok deps') (q x : String) :
    x ∈ recGetD deps' q [] ↔
      x ∈ recGetD deps q [] ∨
        (q = p.name ∧ x = cur ∧ p.name ∉ u ∧
          jsTruthy (recFind? (p.dependencies.getD []) cur) = true) := by
  unfold scanPair at h
  by_cases hu : p.name ∈ u
  · rw [if_pos hu] at h
    cases h
    rw [recGetD_setD_nil]
    simp [hu]
  · rw [if_neg hu] at h
    cases hd : p.dependencies with
    | none => rw [hd] at h; exact absurd h (by simp)
    | some pd =>
        rw [hd] at h
        dsimp only at h
        by_cases hc : (jsTruthy (recFind? pd cur)
            && !((recGetD (recSetD deps p.name []) p.name []).contains cur)) = true
        · rw [if_pos hc] at h
          cases h
          rw [Bool.and_eq_true] at hc
          obtain ⟨ht, hnc⟩ := hc
          by_cases hqp : q = p.name
          · subst hqp
            rw [recGetD_set_self _ _ _ (recHas_setD_self _ _ _), recGetD_setD_nil]
            simp [hd, hu, ht, List.mem_append]
          · rw [recGetD_set_ne _ _ _ _ hqp, recGetD_setD_nil]
            simp [hqp]
        · rw [if_neg hc] at h
          cases h
          rw [recGetD_setD_nil]
          constructor
          · exact fun hx => Or.inl hx
          · rintro (hx | ⟨rfl, rfl, hnu, ht⟩)
            · exact hx
            · have ht' : jsTruthy (recFind? pd x) = true := by simpa [hd] using ht
              cases hB : (recGetD (recSetD deps p.name []) p.name []).contains x with
              | false =>
                  exact absurd (by rw [ht', hB]; rfl) hc
              | true =>
                  have := (contains_iff_mem _ _).mp hB
                  rwa [recGetD_setD_nil] at this

theorem scanInner_mem (u : List String) (read : String → PackageJson) (cur : String) :
    ∀ (fs : List String) (deps deps' : Rec (List String)),
      scanInner u read cur fs deps = .ok deps' → ∀ q x : String,
      (x ∈ recGetD deps' q [] ↔
        x ∈ recGetD deps q [] ∨
          ∃ f ∈ fs, q = (read f).name ∧ x = cur ∧ (read f).name ∉ u ∧
            jsTruthy (recFind? (((read f).dependencies).getD []) cur) = true) := by
  intro fs
  induction fs with
  | nil =>
      intro deps deps' h q x
      simp only [scanInner] at h
      cases h
      simp
  | cons f fs ih =>
      intro deps deps' h q x
      simp only [scanInner] at h
      cases hsp : scanPair u cur deps (read f) with
      | error e => rw [hsp] at h; cases h
      | ok d2 =>
          rw [hsp] at h
          rw [ih d2 deps' h q x, scanPair_mem u cur deps (read f) d2 hsp q x]
          constructor
          · rintro ((hx | hP) | ⟨g, hg, hPg⟩)
            · exact Or.inl hx
            · exact Or.inr ⟨f, List.mem_cons_self f fs, hP⟩
            · exact Or.inr ⟨g, List.mem_cons_of_mem f hg, hPg⟩
          · rintro (hx | ⟨g, hg, hPg⟩)
            · exact Or.inl (Or.inl hx)
            · rcases List.mem_cons.mp hg with rfl | hg'
              · exact Or.inl (Or.inr hPg)
              · exact Or.inr ⟨g, hg', hPg⟩

theorem scanOuter_mem (u : List String) (read : String → PackageJson) (allFiles : List String) :
    ∀ (outer : List String) (files : Rec String) (deps : Rec (List String))
      (files' : Rec String) (deps' : Rec (List String)),
      scanOuter u read allFiles outer files deps = .ok (files', deps') → ∀ q x : String,
      (x ∈ recGetD deps' q [] ↔
        x ∈ recGetD deps q [] ∨
          ∃ fp ∈ outer, ∃ fq ∈ allFiles, q = (read fq).name ∧ x = (read fp).name ∧
            (read fq).name ∉ u ∧
            jsTruthy (recFind? (((read fq).dependencies).getD []) ((read fp).name)) = true) := by
  intro outer
  induction outer with
  | nil =>
      intro files deps files' deps' h q x
      simp only [scanOuter] at h
      cases h
      simp
  | cons fc fs ih =>
      intro files deps files' deps' h q x
      simp only [scanOuter] at h
      cases hsi : scanInner u read (read fc).name allFiles deps with
      | error e => rw [hsi] at h; cases h
      | ok d2 =>
          rw [hsi] at h
          rw [ih _ _ _ _ h q x, scanInner_mem u read (read fc).name allFiles deps d2 hsi q x]
          constructor
          · rintro ((hx | ⟨g, hg, hP⟩) | ⟨fp, hfp, hrest⟩)
            · exact Or.inl hx
            · exact Or.inr ⟨fc, List.mem_cons_self fc fs, g, hg, hP⟩
            · exact Or.inr ⟨fp, List.mem_cons_of_mem fc hfp, hrest⟩
          · rintro (hx | ⟨fp, hfp, hrest⟩)
            · exact Or.inl (Or.inl hx)
            · rcases List.mem_cons.mp hfp with rfl | h'
              · exact Or.inl (Or.inr hrest)
              · exact Or.inr ⟨fp, h', hrest⟩

/-! ### Graph-builder error and congruence lemmas -/

theorem scanPair_error_iff (u : List String) (cur : String) (deps : Rec (List String))
    (p : PackageJson) (e : Unit) :
    scanPair u cur deps p = .error e ↔ p.name ∉ u ∧ p.dependencies = none := by
  constructor
  · intro h
    unfold scanPair at h
    by_cases hu : p.name ∈ u
    · rw [if_pos hu] at h
      cases h
    · rw [if_neg hu] at h
      cases hd : p.dependencies with
      | none => exact ⟨hu, rfl⟩
      | some pd =>
          rw [hd] at h
          dsimp only at h
          split at h <;> cases h
  · rintro ⟨hu, hd⟩
    unfold scanPair
    rw [if_neg hu, hd]

theorem scanInner_error (u : List String) (read : String → PackageJson) (cur : String) :
    ∀ (fs : List String) (deps : Rec (List String)),
      (∃ f ∈ fs, (read f).name ∉ u ∧ (read f).dependencies = none) →
      scanInner u read cur fs deps = .error () := by
  intro fs
  induction fs with
  | nil =>
      rintro deps ⟨f, hf, -⟩
      simp at hf
  | cons f fs ih =>
      rintro deps ⟨g, hg, hbad⟩
      by_cases hb : (read f).name ∉ u ∧ (read f).dependencies = none
      · have hsp : scanPair u cur deps (read f) = .error () :=
          (scanPair_error_iff u cur deps (read f) ()).mpr hb
        simp only [scanInner, hsp]
      · have hok : ∃ d2, scanPair u cur deps (read f) = .ok d2 := by
          cases hsp : scanPair u cur deps (read f) with
          | ok d2 => exact ⟨d2, rfl⟩
          | error e2 => exact absurd ((scanPair_error_iff u cur deps (read f) e2).mp hsp) hb
        obtain ⟨d2, hd2⟩ := hok
        have hgfs : g ∈ fs := by
          rcases List.mem_cons.mp hg with rfl | h'
          · exact absurd hbad hb
          · exact h'
        simp only [scanInner, hd2]
        exact ih d2 ⟨g, hgfs, hbad⟩

theorem scanOuter_error (u : List String) (read : String → PackageJson)
    (allFiles : List String) (f0 : String) (fs : List String) (files : Rec String)
    (deps : Rec (List String))
    (h : ∃ f ∈ allFiles, (read f).name ∉ u ∧ (read f).dependencies = none) :
    scanOuter u read allFiles (f0 :: fs) files deps = .error () := by
  have hsi := scanInner_error u read (read f0).name allFiles deps h
  simp only [scanOuter, hsi]

theorem scanInner_congr (u : List String) (r₁ r₂ : String → PackageJson) (cur : String) :
    ∀ (fs : List String) (deps : Rec (List String)),
      (∀ f ∈ fs, r₁ f = r₂ f) →
      scanInner u r₁ cur fs deps = scanInner u r₂ cur fs deps := by
  intro fs
  induction fs with
  | nil => intro deps h; rfl
  | cons f fs ih =>
      intro deps h
      have hf : r₁ f = r₂ f := h f (List.mem_cons_self f fs)
      simp only [scanInner, hf]
      cases hsp : scanPair u cur deps (r₂ f) with
      | error e => rfl
      | ok d2 => exact ih d2 (fun g hg => h g (List.mem_cons_of_mem f hg))

theorem scanOuter_congr (u : List String) (r₁ r₂ : String → PackageJson)
    (allFiles : List String) (hall : ∀ f ∈ allFiles, r₁ f = r₂ f) :
    ∀ (outer : List String) (files : Rec String) (deps : Rec (List String)),
      (∀ f ∈ outer, r₁ f = r₂ f) →
      scanOuter u r₁ allFiles outer files deps = scanOuter u r₂ allFiles outer files deps := by
  intro outer
  induction outer with
  | nil => intro files deps h; rfl
  | cons f fs ih =>
      intro files deps h
      have hf : r₁ f = r₂ f := h f (List.mem_cons_self f fs)
      simp only [scanOuter, hf, scanInner_congr u r₁ r₂ (r₂ f).name allFiles deps hall]
      cases hsi : scanInner u r₂ (r₂ f).name allFiles deps with
      | error e => rfl
      | ok d2 => exact ih _ d2 (fun g hg => h g (List.mem_cons_of_mem f hg))

/-! ### Scheduler-loop lemmas -/

theorem consRound_rounds (r : List String) (out : RunOutcome) :
    (consRound r out).rounds = r :: out.rounds := by
  cases out <;> rfl

theorem frontier_ne_nil_pc (files : Rec String) (st : SchedState)
    (h : frontier files st ≠ []) : st.packagesCopy ≠ [] := by
  intro hpc
  apply h
  unfold frontier
  rw [hpc]
  rfl

theorem schedLoopAux_fst (d₁ d₂ : String → String)
    (o₁ o₂ : String → Option CommandLineError) (n₁ n₂ : Nat) (files : Rec String) :
    ∀ (fuel : Nat) (st : SchedState) (e₁ e₂ : List CommandExecutionError),
      (schedLoopAux d₁ o₁ n₁ files fuel st e₁).1
        = (schedLoopAux d₂ o₂ n₂ files fuel st e₂).1 := by
  intro fuel
  induction fuel with
  | zero => intro st e₁ e₂; rfl
  | succ fuel ih =>
      intro st e₁ e₂
      simp only [schedLoopAux]
      cases h1 : (frontier files st).isEmpty with
      | true => cases h2 : st.packagesCopy.isEmpty <;> simp
      | false =>
          simp only [Bool.false_eq_true, if_false]
          cases h3 : (retire files st (frontier files st)).packagesCopy.isEmpty with
          | true => simp
          | false =>
              simp only [Bool.false_eq_true, if_false]
              exact congrArg (consRound (frontier files st)) (ih _ _ _)

theorem schedLoopAux_errors (d : String → String) (o : String → Option CommandLineError)
    (n : Nat) (files : Rec String) :
    ∀ (fuel : Nat) (st : SchedState) (e : List CommandExecutionError),
      (schedLoopAux d o n files fuel st e).2
        = e ++ (schedLoopAux d o n files fuel st e).1.rounds.flatten.filterMap (errOf d o) := by
  intro fuel
  induction fuel with
  | zero => intro st e; simp [schedLoopAux, RunOutcome.rounds]
  | succ fuel ih =>
      intro st e
      simp only [schedLoopAux]
      cases h1 : (frontier files st).isEmpty with
      | true => cases h2 : st.packagesCopy.isEmpty <;> simp [RunOutcome.rounds]
      | false =>
          simp only [Bool.false_eq_true, if_false]
          cases h3 : (retire files st (frontier files st)).packagesCopy.isEmpty with
          | true => simp [RunOutcome.rounds, dispatchRound_eq]
          | false =>
              simp only [Bool.false_eq_true, if_false]
              rw [ih, dispatchRound_eq, consRound_rounds, List.flatten_cons,
                List.filterMap_append, List.append_assoc]

theorem schedLoopAux_fuel (d : String → String) (o : String → Option CommandLineError)
    (n : Nat) (files : Rec String) :
    ∀ (fuel : Nat) (st : SchedState) (e : List CommandExecutionError),
      st.packagesCopy.length < fuel →
      schedLoopAux d o n files fuel st e = schedLoop d o n files st e := by
  intro fuel
  induction fuel using Nat.strong_induction_on with
  | _ fuel ih =>
      intro st e hlt
      cases fuel with
      | zero => exact absurd hlt (Nat.not_lt_zero _)
      | succ m =>
          show schedLoopAux d o n files (m + 1) st e
            = schedLoopAux d o n files (st.packagesCopy.length + 1) st e
          simp only [schedLoopAux]
          cases h1 : (frontier files st).isEmpty with
          | true => rfl
          | false =>
              simp only [Bool.false_eq_true, if_false]
              cases h3 : (retire files st (frontier files st)).packagesCopy.isEmpty with
              | true => rfl
              | false =>
                  simp only [Bool.false_eq_true, if_false]
                  have hfr : frontier files st ≠ [] := by
                    intro hc
                    rw [hc] at h1
                    simp at h1
                  have hpc : st.packagesCopy ≠ [] := frontier_ne_nil_pc files st hfr
                  have hlen2 : (retire files st (frontier files st)).packagesCopy.length
                      < st.packagesCopy.length := by
                    rw [retire_length]
                    have hfl : 0 < (frontier files st).length := List.length_pos.mpr hfr
                    have hpl : 0 < st.packagesCopy.length := List.length_pos.mpr hpc
                    omega
                  rw [ih m (by omega) _ _ (by omega),
                    ih st.packagesCopy.length (by omega) _ _ (by omega)]

/-! ## Claim theorems -/

/-- C1: the claim (with spec §6) requires the runner CLI to exit 0 when
`runPackageCommand` reports no per-item failures and no deadlock, and
nonzero otherwise.  The code's mapping `if (!await runPackageCommand(...))
process.exit(1)` is inverted: the fully successful run evaluated here
returns `false` (`noErrors`), which is falsy, so the CLI exits 1; the same
run with a failing command returns a truthy error array, so the CLI falls
through and exits 0.  This contradicts both the claim and the function's
own documentation ("`false` if no errors occurred"). -/
theorem c1_cli_exit_code_inverted :
    runPackageCommand (fun _ => ⟨"A", "1.0.0", some [], none⟩) (fun s => s)
        (fun _ => none) 4 none ["pkgA/package.json"]
      = .ok ⟨2, .drained [["pkgA/package.json"]], [], .noErrors⟩
    ∧ cliExitCode .noErrors = 1
    ∧ runPackageCommand (fun _ => ⟨"A", "1.0.0", some [], none⟩) (fun s => s)
        (fun _ => some ⟨"", "boom", 1⟩) 4 none ["pkgA/package.json"]
      = .ok ⟨2, .drained [["pkgA/package.json"]],
          [⟨"pkgA/package.json", ⟨"", "boom", 1⟩⟩],
          .failures [⟨"pkgA/package.json", ⟨"", "boom", 1⟩⟩]⟩
    ∧ cliExitCode (.failures [⟨"pkgA/package.json", ⟨"", "boom", 1⟩⟩]) = 0 :=
  ⟨rfl, rfl, rfl, rfl⟩

/-- C2: for the acyclic chain {A: deps=[], B: deps=[A], C: deps=[B]} the
claim requires C's round index to strictly exceed B's.  The embedded code
dispatches B and C in the same second round: retiring A executes
`deps["C"].splice(deps["C"].indexOf("A"), 1)`, and since `"A" ∉ ["B"]`,
`indexOf` yields `-1` and `splice(-1, 1)` removes `"B"`, emptying C's
unresolved set one round early.  The loop does drain, but the
round-ordering half of the claim fails (both packages sit at round
index 1). -/
theorem c2_chain_same_round :
    runPackageCommand
        (fun f => if f = "a" then ⟨"A", "1", some [], none⟩
          else if f = "b" then ⟨"B", "1", some [("A", "1")], none⟩
          else ⟨"C", "1", some [("B", "1")], none⟩)
        (fun s => s) (fun _ => none) 4 none ["a", "b", "c"]
      = .ok ⟨2, .drained [["a"], ["b", "c"]], [], .noErrors⟩
    ∧ (RunOutcome.drained [["a"], ["b", "c"]]).rounds.findIdx (fun r => r.contains "c")
      = (RunOutcome.drained [["a"], ["b", "c"]]).rounds.findIdx (fun r => r.contains "b") :=
  ⟨rfl, rfl⟩

/-- C3: the claim requires retirement to remove the retired package's key,
strike its name from sets that contain it, and leave every other
unresolved set unchanged.  Retiring A from {A: [], B: ["A"], C: ["B"]}
must leave C's set `["B"]` (which does not contain "A") untouched, but the
`splice(indexOf, 1)` idiom drops C's last element, leaving C's set empty.
The code's own comment ("Remove package from dependencies") states the
intent the claim describes, so the code is the slip. -/
theorem c3_retire_strikes_unrelated_entry :
    retire [("fa", "A"), ("fb", "B"), ("fc", "C")]
        ⟨["fa", "fb", "fc"], [("A", []), ("B", ["A"]), ("C", ["B"])]⟩ ["fa"]
      = ⟨["fb", "fc"], [("B", []), ("C", [])]⟩
    ∧ "A" ∉ (["B"] : List String) :=
  ⟨rfl, by decide⟩

/-- C4 (counterexample): the claim fails in two ways.  First, exemption is
tested on the dependent, not the dependency: with exemption list `["P"]`
and Q depending on P, the built graph still contains the edge
`P ∈ deps[Q]` although the claim requires "P is not exempted" for any
edge.  Second, a manifest declaring a dependency on its own name is not
ignored: a lone package A depending on "A" produces the self-edge
`A ∈ deps[A]`, though the claim requires P and Q to be distinct. -/
theorem c4_counterexample :
    buildGraph ["P"]
        (fun f => if f = "p" then ⟨"P", "1", some [], none⟩
          else ⟨"Q", "1", some [("P", "1")], none⟩) ["p", "q"]
      = .ok ([("p", "P"), ("q", "Q")], [("P", []), ("Q", ["P"])])
    ∧ "P" ∈ recGetD [("P", ([] : List String)), ("Q", ["P"])] "Q" []
    ∧ "P" ∈ (["P"] : List String)
    ∧ buildGraph [] (fun _ => ⟨"A", "1", some [("A", "1")], none⟩) ["a"]
      = .ok ([("a", "A")], [("A", ["A"])])
    ∧ "A" ∈ recGetD [("A", ["A"])] "A" ([] : List String) :=
  ⟨rfl, by decide, by decide, rfl, by decide⟩

/-- C4 (amended): in the built graph, P lies in Q's unresolved set iff P
and Q are names of (not necessarily distinct) packages of the universe,
the dependent Q is not exempted, and some manifest named Q declares a
runtime dependency on P's name with a truthy (nonempty) version string.
Exemption is tested on the dependent; a manifest declaring its own name
yields a self-edge; `devDependencies` never contribute an edge (the
builder never reads that field). -/
theorem c4_amended_graph_edges (u : List String) (read : String → PackageJson)
    (pkgs : List String) (files : Rec String) (deps : Rec (List String))
    (h : buildGraph u read pkgs = .ok (files, deps)) (q x : String) :
    x ∈ recGetD deps q [] ↔
      ∃ fq ∈ pkgs, ∃ fp ∈ pkgs, (read fq).name = q ∧ (read fp).name = x ∧
        (read fq).name ∉ u ∧
        jsTruthy (recFind? (((read fq).dependencies).getD []) x) = true := by
  have hm := scanOuter_mem u read pkgs pkgs [] [] files deps h q x
  rw [hm]
  constructor
  · rintro (hx | ⟨fp, hfp, fq, hfq, rfl, rfl, hn, ht⟩)
    · simp [recGetD, recFind?] at hx
    · exact ⟨fq, hfq, fp, hfp, rfl, rfl, hn, ht⟩
  · rintro ⟨fq, hfq, fp, hfp, rfl, rfl, hn, ht⟩
    exact Or.inr ⟨fp, hfp, fq, hfq, rfl, rfl, hn, ht⟩

/-- C4 witness: the amended characterization instantiated on the
one-package self-dependency universe, the `buildGraph` hypothesis
discharged by evaluation. -/
theorem c4_amended_graph_edges_witness :
    "A" ∈ recGetD [("A", ["A"])] "A" ([] : List String) :=
  (c4_amended_graph_edges [] (fun _ => ⟨"A", "1", some [("A", "1")], none⟩) ["a"]
      [("a", "A")] [("A", ["A"])] rfl "A" "A").mpr
    ⟨"a", by decide, "a", by decide, rfl, rfl, by decide, rfl⟩

/-- C5: whenever the ready frontier is empty while packages remain, the
scheduler loop returns the deadlock outcome at once — residual files and
their unresolved sets reported, no round dispatched, the error list
untouched.  On the two-node cycle {A depends on B, B depends on A} the
full run yields the deadlock return code with residual exactly
`["a", "b"]`, zero dispatched rounds and zero executed commands. -/
theorem c5_deadlock_abort :
    (∀ (d : String → String) (o : String → Option CommandLineError) (n : Nat)
        (files : Rec String) (st : SchedState) (e : List CommandExecutionError),
        frontier files st = [] → st.packagesCopy ≠ [] →
        schedLoop d o n files st e = (.deadlocked [] st.packagesCopy st.deps, e))
    ∧ runPackageCommand
        (fun f => if f = "a" then ⟨"A", "1", some [("B", "1")], none⟩
          else ⟨"B", "1", some [("A", "1")], none⟩)
        (fun s => s) (fun _ => none) 4 none ["a", "b"]
      = .ok ⟨2, .deadlocked [] ["a", "b"] [("A", ["B"]), ("B", ["A"])], [],
          .deadlockCode⟩ := by
  constructor
  · intro d o n files st e hfr hpc
    show schedLoopAux d o n files (st.packagesCopy.length + 1) st e = _
    simp only [schedLoopAux, hfr]
    have h2 : st.packagesCopy.isEmpty = false := by
      cases hh : st.packagesCopy with
      | nil => exact absurd hh hpc
      | cons p ps => rfl
    simp [h2]
  · rfl

/-- C5 witness: the deadlock theorem applied to the concrete two-node
cycle state. -/
theorem c5_deadlock_abort_witness :
    schedLoop (fun s => s) (fun _ => none) 2 [("a", "A"), ("b", "B")]
        ⟨["a", "b"], [("A", ["B"]), ("B", ["A"])]⟩ []
      = (.deadlocked [] ["a", "b"] [("A", ["B"]), ("B", ["A"])], []) :=
  c5_deadlock_abort.1 (fun s => s) (fun _ => none) 2 [("a", "A"), ("b", "B")]
    ⟨["a", "b"], [("A", ["B"]), ("B", ["A"])]⟩ [] rfl (by decide)

/-- C6: per-item failures are recovered locally and never affect
scheduling.  First conjunct: the scheduler outcome — every round's
membership and order, and any deadlock — is identical for any two outcome
oracles (and dirnames and chunk widths), so after a failure every other
item of the chunk and all later chunks still run and every dependent is
scheduled in exactly the round it would occupy had the item succeeded.
Second conjunct: the error list extends the incoming one with exactly the
dispatched items that failed, in dispatch order, each recorded as
`{directory, error}`; the dispatcher is total, so no item's failure
escapes it. -/
theorem c6_best_effort_failures :
    (∀ (d₁ d₂ : String → String) (o₁ o₂ : String → Option CommandLineError)
        (n₁ n₂ : Nat) (files : Rec String) (st : SchedState)
        (e₁ e₂ : List CommandExecutionError),
        (schedLoop d₁ o₁ n₁ files st e₁).1 = (schedLoop d₂ o₂ n₂ files st e₂).1)
    ∧ (∀ (d : String → String) (o : String → Option CommandLineError) (n : Nat)
        (files : Rec String) (st : SchedState) (e : List CommandExecutionError),
        (schedLoop d o n files st e).2
          = e ++ (schedLoop d o n files st e).1.rounds.flatten.filterMap (errOf d o)) :=
  ⟨fun d₁ d₂ o₁ o₂ n₁ n₂ files st e₁ e₂ =>
      schedLoopAux_fst d₁ d₂ o₁ o₂ n₁ n₂ files (st.packagesCopy.length + 1) st e₁ e₂,
    fun d o n files st e =>
      schedLoopAux_errors d o n files (st.packagesCopy.length + 1) st e⟩

/-- C7: with the exempt-all exemption (`uncheck` `true` or `"*"`) no
dependency graph is built — the run never reads a manifest, hence two runs
with arbitrary different manifest readers coincide — and the run completes
in exactly one round whose frontier is the entire package list. -/
theorem c7_exempt_all_single_round (envU : Option UncheckInput)
    (hp : parseUncheck envU = .all) (r₁ r₂ : String → PackageJson)
    (d : String → String) (o : String → Option CommandLineError) (c : Nat)
    (pkgs : List String) :
    runPackageCommand r₁ d o c envU pkgs = runPackageCommand r₂ d o c envU pkgs
    ∧ runPackageCommand r₁ d o c envU pkgs
      = .ok ⟨maxThreads c, .drained [pkgs], dispatchRound d o (maxThreads c) [] pkgs,
          if (dispatchRound d o (maxThreads c) [] pkgs).isEmpty then .noErrors
          else .failures (dispatchRound d o (maxThreads c) [] pkgs)⟩ := by
  unfold runPackageCommand
  rw [hp]
  exact ⟨rfl, rfl⟩

/-- C7 witness: exempt-all via `"*"` on three packages, one reader with a
declared dependency and one whose manifest even lacks the `dependencies`
field: same result, one full round, no graph built. -/
theorem c7_exempt_all_single_round_witness :
    runPackageCommand (fun _ => ⟨"A", "1", some [("B", "1")], none⟩) (fun s => s)
        (fun _ => none) 8 (some (.strVal "*")) ["x", "y", "z"]
      = runPackageCommand (fun _ => ⟨"B", "2", none, none⟩) (fun s => s)
        (fun _ => none) 8 (some (.strVal "*")) ["x", "y", "z"]
    ∧ runPackageCommand (fun _ => ⟨"A", "1", some [("B", "1")], none⟩) (fun s => s)
        (fun _ => none) 8 (some (.strVal "*")) ["x", "y", "z"]
      = .ok ⟨4, .drained [["x", "y", "z"]], [], .noErrors⟩ :=
  ⟨(c7_exempt_all_single_round (some (.strVal "*")) rfl
      (fun _ => ⟨"A", "1", some [("B", "1")], none⟩) (fun _ => ⟨"B", "2", none, none⟩)
      (fun s => s) (fun _ => none) 8 ["x", "y", "z"]).1,
    by
      rw [(c7_exempt_all_single_round (some (.strVal "*")) rfl
        (fun _ => ⟨"A", "1", some [("B", "1")], none⟩) (fun _ => ⟨"B", "2", none, none⟩)
        (fun s => s) (fun _ => none) 8 ["x", "y", "z"]).2]
      rfl⟩

/-- C8: the concurrency limit equals `max(round(cpus/2), 2)` (embedded as
`maxThreads`, always at least 2 and computed once per run as the
scheduler's fixed `n`); each round is partitioned into consecutive chunks
whose concatenation is exactly the round and whose sizes never exceed the
limit, and dispatching the chunks sequentially (each chunk settling before
the next starts) appends exactly the round's failures in dispatch
order. -/
theorem c8_bounded_chunks (c : Nat) (round : List String) :
    2 ≤ maxThreads c
    ∧ (chunksOf (maxThreads c) round).flatten = round
    ∧ (∀ ch, ch ∈ chunksOf (maxThreads c) round → ch.length ≤ maxThreads c)
    ∧ (∀ (d : String → String) (o : String → Option CommandLineError)
        (e : List CommandExecutionError),
        dispatchRound d o (maxThreads c) e round = e ++ round.filterMap (errOf d o)) := by
  refine ⟨show 2 ≤ max ((c + 1) / 2) 2 from le_max_right _ _,
    chunksOf_join _ _, ?_, ?_⟩
  · intro ch hch
    have h1 := chunksOf_length_le (maxThreads c) round ch hch
    have h2 : (1 : Nat) ≤ maxThreads c :=
      le_trans (by norm_num) (show 2 ≤ max ((c + 1) / 2) 2 from le_max_right _ _)
    rwa [max_eq_left h2] at h1
  · intro d o e
    exact dispatchRound_eq d o (maxThreads c) e round

/-- C8 witness: the chunking facts instantiated at 4 CPUs (limit 2) and a
three-item round; the middle conjunct applies the size bound to the first
chunk. -/
theorem c8_bounded_chunks_witness :
    (chunksOf (maxThreads 4) ["a", "b", "c"]).flatten = ["a", "b", "c"]
    ∧ (["a", "b"] : List String).length ≤ maxThreads 4 :=
  ⟨(c8_bounded_chunks 4 ["a", "b", "c"]).2.1,
    (c8_bounded_chunks 4 ["a", "b", "c"]).2.2.1 ["a", "b"] (by decide)⟩

/-- C9 (counterexample): the claim quantifies over every run that is not
exempt-all, but when the deficient manifest's own name is on the exemption
list, the short-circuited guard `!uncheck.includes(packageInfo.name) && packageInfo.dependencies[...]`
never dereferences the missing field: with `uncheck = "Q"` and the only
manifest lacking `dependencies`, the run completes normally instead of
throwing. -/
theorem c9_counterexample :
    parseUncheck (some (.strVal "Q")) = .names ["Q"]
    ∧ runPackageCommand (fun _ => ⟨"Q", "1", none, none⟩) (fun s => s) (fun _ => none) 4
        (some (.strVal "Q")) ["q/package.json"]
      = .ok ⟨2, .drained [["q/package.json"]], [], .noErrors⟩ :=
  ⟨rfl, rfl⟩

/-- C9 (amended): for every run with dependency checking enabled, if some
manifest whose package name is NOT exempted lacks the `dependencies`
field, graph construction dereferences the missing field unguarded and
throws, aborting the whole run (`Except.error`) before any command is
dispatched and without recording any per-item failure. -/
theorem c9_missing_dependencies_throws (envU : Option UncheckInput) (u : List String)
    (read : String → PackageJson) (d : String → String)
    (o : String → Option CommandLineError) (c : Nat) (pkgs : List String) (f : String)
    (hp : parseUncheck envU = .names u) (hf : f ∈ pkgs)
    (hn : (read f).name ∉ u) (hd : (read f).dependencies = none) :
    runPackageCommand read d o c envU pkgs = .error () := by
  unfold runPackageCommand
  rw [hp]
  dsimp only
  cases pkgs with
  | nil => exact absurd hf (by simp)
  | cons p ps =>
      have hbg : buildGraph u read (p :: ps) = .error () :=
        scanOuter_error u read (p :: ps) p ps [] [] ⟨f, hf, hn, hd⟩
      rw [hbg]

/-- C9 witness: the amended theorem applied to a one-package universe with
no exemption and a manifest lacking `dependencies`. -/
theorem c9_missing_dependencies_throws_witness :
    runPackageCommand (fun _ => ⟨"A", "1", none, none⟩) (fun s => s) (fun _ => none) 4
        none ["a/package.json"] = .error () :=
  c9_missing_dependencies_throws none [] (fun _ => ⟨"A", "1", none, none⟩) (fun s => s)
    (fun _ => none) 4 ["a/package.json"] "a/package.json" rfl (by decide) (by decide) rfl

/-- C10: dependency-graph construction is a pure, deterministic function
of the manifest contents: two readers that agree on every manifest of the
universe produce literally the same `files` map and the same adjacency —
the same names mapped to the same unresolved lists in the same order. -/
theorem c10_graph_determinism (u : List String) (r₁ r₂ : String → PackageJson)
    (pkgs : List String) (h : ∀ f ∈ pkgs, r₁ f = r₂ f) :
    buildGraph u r₁ pkgs = buildGraph u r₂ pkgs := by
  unfold buildGraph
  exact scanOuter_congr u r₁ r₂ pkgs h pkgs [] [] h

/-- C10 witness: two distinct readers agreeing on the single manifest of
the universe yield identical graphs. -/
theorem c10_graph_determinism_witness :
    buildGraph [] (fun _ => ⟨"A", "1", some [("B", "1")], none⟩) ["a"]
      = buildGraph []
        (fun f => if f = "a" then ⟨"A", "1", some [("B", "1")], none⟩
          else ⟨"Z", "9", none, none⟩) ["a"] :=
  c10_graph_determinism [] (fun _ => ⟨"A", "1", some [("B", "1")], none⟩)
    (fun f => if f = "a" then ⟨"A", "1", some [("B", "1")], none⟩
      else ⟨"Z", "9", none, none⟩) ["a"]
    (by
      intro f hf
      have : f = "a" := by simpa using hf
      rw [this]
      rfl)

end MonkRunner
